import Mathlib

/-!
Verification of the yahtzee game engine (Rust sources under src/) against its
natural-language specification.  Rust data types are shallowly embedded as Lean
structures and inductives; `u32`/`usize` values are embedded as `Nat` (all the
quantities involved are small, non-negative counters and scores); fallible Rust
methods returning `Result` are embedded as `Except`-valued functions, except
where a method mutates `self` before failing, in which case it is embedded in
state-passing style as `state × Option error` so that the state left behind by
a failing call is observable.  The thread-local random number generator is
abstracted as an injectable stream `Nat → Fin 6` of draws (the spec demands an
injectable randomness source; each draw indexes into `Die::PIPS`).
-/

namespace Yahtzee

/-! ### src/hand.rs -/

/-- One die: a pip value and a held flag (struct `Die` in hand.rs). -/
structure Die where
  pip : Nat
  is_held : Bool
deriving DecidableEq

namespace Die

/-- `Die::PIPS`. -/
def PIPS : List Nat := [1, 2, 3, 4, 5, 6]

end Die

/-- `HandOpError` of hand.rs. -/
inductive HandOpError where
  | NoDie (pos : Nat)
  | OutOfPossibleRange
  | NoDiceToRoll
  | NoDiceToReroll
  | TooBigHand
  | NotFullyFilled
  | ReturnShortHand (pips : List Nat)
deriving DecidableEq

/-- `Die::gen_n_dice`: `num` freshly drawn dice, each unheld, with pip drawn
from `Die::PIPS` by the abstracted random stream `rng`. -/
def gen_n_dice (num : Nat) (rng : Nat → Fin 6) : List Die :=
  (List.range num).map (fun i => { pip := Die.PIPS.get (Fin.cast rfl (rng i)), is_held := false })

/-- Struct `Hand` of hand.rs: an ordered sequence of dice. -/
structure Hand where
  dice : List Die
deriving DecidableEq

namespace Hand

/-- `Hand::DICE_NUM`. -/
def DICE_NUM : Nat := 5

/-- `Hand::is_held_all`: errors with `TooBigHand` when the hand has more than
five dice, otherwise reports whether the hand has exactly five dice, all held. -/
def is_held_all (h : Hand) : Except HandOpError Bool :=
  if h.dice.length ≤ DICE_NUM then
    .ok ((h.dice.length == DICE_NUM) && h.dice.all (fun d => d.is_held))
  else
    .error .TooBigHand

/-- `Hand::fill_dice`: errors with `NoDiceToRoll` unless the hand has fewer
than five dice, otherwise extends the hand with fresh dice up to five. -/
def fill_dice (h : Hand) (rng : Nat → Fin 6) : Except HandOpError Hand :=
  if h.dice.length < DICE_NUM then
    .ok ⟨h.dice ++ gen_n_dice (DICE_NUM - h.dice.length) rng⟩
  else
    .error .NoDiceToRoll

/-- `Hand::remove_dice`: collects the indices of the unheld dice in descending
order and removes them one by one. -/
def remove_dice (h : Hand) : Hand :=
  let to_be_removed :=
    (h.dice.enum.reverse).filterMap (fun p => if !p.2.is_held then some p.1 else none)
  ⟨to_be_removed.foldl (fun ds i => ds.eraseIdx i) h.dice⟩

/-- `Hand::reroll_dice`: `ensure!(!self.is_held_all()?, NoDiceToReroll)`, then
`remove_dice` followed by `fill_dice`. -/
def reroll_dice (h : Hand) (rng : Nat → Fin 6) : Except HandOpError Hand :=
  match h.is_held_all with
  | .error e => .error e
  | .ok true => .error .NoDiceToReroll
  | .ok false => (h.remove_dice).fill_dice rng

/-- `Hand::hold_all`, in state-passing style (the Rust method mutates `self`
and may fail afterwards): marks every die held, then fails with
`NotFullyFilled` when the hand does not have exactly five dice. -/
def hold_all (h : Hand) : Hand × Option HandOpError :=
  if h.dice.length ≤ DICE_NUM then
    let h' : Hand := ⟨h.dice.map (fun d => { d with is_held := true })⟩
    match h'.is_held_all with
    | .ok true => (h', none)
    | .ok false => (h', some .NotFullyFilled)
    | .error e => (h', some e)
  else
    (h, some .TooBigHand)

end Hand

/-! ### src/scoring.rs -/

/-- `FULL_HOUSE_SCORE`. -/
def FULL_HOUSE_SCORE : Nat := 25

/-- `SMALL_STRAIGHT_SCORE`. -/
def SMALL_STRAIGHT_SCORE : Nat := 30

/-- `LARGE_STRAIGHT_SCORE`. -/
def LARGE_STRAIGHT_SCORE : Nat := 40

/-- `YAHTZEE_SCORE`. -/
def YAHTZEE_SCORE : Nat := 50

/-- Enum `Boxes` of scoring.rs (constructor spellings kept from the source). -/
inductive Boxes where
  | Aces
  | Twos
  | Threes
  | Fours
  | Fives
  | Sixes
  | ThreeOfaAKind
  | FourOfaAKind
  | FullHouse
  | SmallStraight
  | LargeStraight
  | Yahtzee
  | Chance
deriving DecidableEq

/-- `upper_section_scoring`: count of dice showing `spots`, times `spots`. -/
def upper_section_scoring (dice : List Nat) (spots : Nat) : Nat :=
  dice.count spots * spots

/-- `n_of_a_kind`: scans the faces in positions `0..=(DICE_NUM-n)`; if one of
them occurs at least `n` times in the whole hand, the score is the sum of all
dice, otherwise 0. -/
def n_of_a_kind (dice : List Nat) (n : Nat) : Nat :=
  if (dice.take (Hand.DICE_NUM - n + 1)).any (fun d => n ≤ dice.count d) then
    dice.sum
  else
    0

/-- `three_of_a_kind`. -/
def three_of_a_kind (dice : List Nat) : Nat := n_of_a_kind dice 3

/-- `four_of_a_kind`. -/
def four_of_a_kind (dice : List Nat) : Nat := n_of_a_kind dice 4

/-- `full_house`: sorts the dice; the hand qualifies (score 25) when the
sorted hand is `[min, min, min, max, max]` or `[min, min, max, max, max]`
with `min ≠ max`.  (The Rust indexes `sorted_dice[0]` and `sorted_dice[4]`,
which its caller guarantees to exist by passing exactly five dice; the
defaulted `headD`/`getD` embed those reads.) -/
def full_house (dice : List Nat) : Nat :=
  let sorted_dice := dice.mergeSort
  let fst := sorted_dice.headD 0
  let lst := sorted_dice.getD (Hand.DICE_NUM - 1) 0
  let case0 := [fst, fst, fst, lst, lst]
  let case1 := [fst, fst, lst, lst, lst]
  if fst ≠ lst ∧ (sorted_dice = case0 ∨ sorted_dice = case1) then FULL_HOUSE_SCORE else 0

/-- `small_straight`: deduplicates and sorts the dice (the Rust collects into
a `HashSet` and sorts; sorting then deduplicating adjacent values yields the
same sorted list of distinct faces), then looks for a window of four
consecutive integers. -/
def small_straight (dice : List Nat) : Nat :=
  let sorted_dice := (dice.mergeSort).dedup
  if sorted_dice.length < 4 then 0
  else if (List.range (sorted_dice.length - 4 + 1)).any (fun i =>
      (sorted_dice.drop i).take 4 = (List.range 4).map (fun j => sorted_dice.getD i 0 + j)) then
    SMALL_STRAIGHT_SCORE
  else 0

/-- `large_straight`: the sorted hand must be five consecutive integers. -/
def large_straight (dice : List Nat) : Nat :=
  let sorted_dice := dice.mergeSort
  let fst := sorted_dice.headD 0
  if sorted_dice = (List.range Hand.DICE_NUM).map (fun i => fst + i) then
    LARGE_STRAIGHT_SCORE
  else 0

/-- `yahtzee`: all five dice equal to the first one. -/
def yahtzee (dice : List Nat) : Nat :=
  if dice = List.replicate Hand.DICE_NUM (dice.headD 0) then YAHTZEE_SCORE else 0

/-- `chance`: sum of all dice. -/
def chance (dice : List Nat) : Nat := dice.sum

/-- `scoring`: dispatch on the category.  The Rust function panics when the
hand does not have exactly five dice (a caller contract violation); the
embedding returns `none` in that case. -/
def scoring (b : Boxes) (dice : List Nat) : Option Nat :=
  if dice.length ≠ Hand.DICE_NUM then none
  else some (match b with
    | .Aces => upper_section_scoring dice 1
    | .Twos => upper_section_scoring dice 2
    | .Threes => upper_section_scoring dice 3
    | .Fours => upper_section_scoring dice 4
    | .Fives => upper_section_scoring dice 5
    | .Sixes => upper_section_scoring dice 6
    | .ThreeOfaAKind => three_of_a_kind dice
    | .FourOfaAKind => four_of_a_kind dice
    | .FullHouse => full_house dice
    | .SmallStraight => small_straight dice
    | .LargeStraight => large_straight dice
    | .Yahtzee => yahtzee dice
    | .Chance => chance dice)

/-! ### src/score_table.rs -/

/-- `RecordError` of score_table.rs. -/
inductive RecordError where
  | TryToFillFilledRecord
deriving DecidableEq

/-- Struct `Record`: one cell of a score table. -/
structure Record where
  score : Option Nat
deriving DecidableEq

namespace Record

/-- `Record::new`. -/
def new : Record := { score := none }

/-- `Record::new_with_score`. -/
def new_with_score (score : Nat) : Record := { score := some score }

/-- `Record::is_filled`. -/
def is_filled (r : Record) : Bool := r.score.isSome

/-- `Record::get_score`. -/
def get_score (r : Record) : Option Nat := r.score

/-- `Record::fill`, in state-passing style (the Rust method mutates in place):
fails without writing when the record is already filled. -/
def fill (r : Record) (score : Nat) : Record × Option RecordError :=
  if r.is_filled then (r, some .TryToFillFilledRecord)
  else ({ score := some score }, none)

end Record

/-- The thirteen `Boxes` values, in declaration order; models iteration over
the score table's `HashMap`, which holds exactly one `Record` per `Boxes`
value from construction. -/
def allBoxes : List Boxes :=
  [.Aces, .Twos, .Threes, .Fours, .Fives, .Sixes, .ThreeOfaAKind, .FourOfaAKind,
    .FullHouse, .SmallStraight, .LargeStraight, .Yahtzee, .Chance]

/-- Struct `ScoreTable`: the `HashMap<Boxes, Record>` (total from
construction) is embedded as a function. -/
structure ScoreTable where
  table : Boxes → Record

namespace ScoreTable

/-- `ScoreTable::BONUS_TARGETS`. -/
def BONUS_TARGETS : List (Boxes × Nat) :=
  [(.Aces, 1), (.Twos, 2), (.Threes, 3), (.Fours, 4), (.Fives, 5), (.Sixes, 6)]

/-- `ScoreTable::BONUS_THRESHOLD`: (1 + 2 + ... + 6) * 3. -/
def BONUS_THRESHOLD : Nat := (List.range' 1 Die.PIPS.length).sum * 3

/-- `ScoreTable::BONUS_POINT`. -/
def BONUS_POINT : Nat := 35

/-- `ScoreTable::new`: all categories unfilled. -/
def new : ScoreTable := ⟨fun _ => Record.new⟩

/-- `ScoreTable::get_score`. -/
def get_score (t : ScoreTable) (b : Boxes) : Option Nat := (t.table b).get_score

/-- `ScoreTable::has_score_in`. -/
def has_score_in (t : ScoreTable) (b : Boxes) : Bool := (t.table b).is_filled

/-- `ScoreTable::get_num_filled_scores`. -/
def get_num_filled_scores (t : ScoreTable) : Nat :=
  (allBoxes.filter (fun b => (t.table b).is_filled)).length

/-- `ScoreTable::confirm_score`, in state-passing style: delegates to
`Record::fill` on the record at `b`. -/
def confirm_score (t : ScoreTable) (b : Boxes) (score : Nat) : ScoreTable × Option RecordError :=
  let r := (t.table b).fill score
  (⟨fun c => if c = b then r.1 else t.table c⟩, r.2)

/-- `ScoreTable::get_total_upper_score`: unfilled upper categories count 0. -/
def get_total_upper_score (t : ScoreTable) : Nat :=
  (BONUS_TARGETS.map (fun p => (t.get_score p.1).getD 0)).sum

/-- The `max` computation inside `ScoreTable::calculate_bonus`: filled upper
scores (`unwrap`, embedded as `getD 0` under the filled guard) plus
`face * DICE_NUM` for every unfilled upper category. -/
def max_possible_upper_score (t : ScoreTable) : Nat :=
  (BONUS_TARGETS.map (fun p =>
    if t.has_score_in p.1 then (t.get_score p.1).getD 0 else p.2 * Hand.DICE_NUM)).sum

/-- `ScoreTable::calculate_bonus`. -/
def calculate_bonus (t : ScoreTable) : Option Nat :=
  let current := t.get_total_upper_score
  let max := t.max_possible_upper_score
  if BONUS_THRESHOLD ≤ current then some BONUS_POINT
  else if BONUS_THRESHOLD ≤ max then none
  else some 0

/-- `ScoreTable::get_total_score`: all filled scores plus the bonus
(`unwrap_or(0)`). -/
def get_total_score (t : ScoreTable) : Nat :=
  (allBoxes.map (fun b => (t.get_score b).getD 0)).sum + (t.calculate_bonus).getD 0

/-- `ScoreTable::get_total_score_if_filled_by`: clones the table, inserts the
hypothetical record when the category is unfilled, and totals the clone.  The
embedding is a pure function of `t` — the real table cannot be mutated. -/
def get_total_score_if_filled_by (t : ScoreTable) (b : Boxes) (score : Nat) : Nat :=
  let dummy : ScoreTable :=
    if t.has_score_in b then t
    else ⟨fun c => if c = b then Record.new_with_score score else t.table c⟩
  dummy.get_total_score

end ScoreTable

/-! ### src/game_data.rs -/

/-- Struct `GameData`. -/
structure GameData where
  num_players : Nat
  scores : List ScoreTable

namespace GameData

/-- `GameData::get_num_players`. -/
def get_num_players (g : GameData) : Nat := g.num_players

/-- The `pid_to_filled_scores` vector computed inside
`GameData::current_player_id`. -/
def pid_to_filled_scores (g : GameData) : List Nat :=
  g.scores.map ScoreTable.get_num_filled_scores

/-- `GameData::current_player_id`: first index `i` in `1..num_players` whose
filled count drops below that of `i-1`, defaulting to 0.  (The Rust indexes
`pid_to_filled_scores[i]`, which a well-formed `GameData` always satisfies;
`getD` embeds the read.) -/
def current_player_id (g : GameData) : Nat :=
  ((List.range' 1 (g.get_num_players - 1)).find? (fun i =>
    g.pid_to_filled_scores.getD (i - 1) 0 > g.pid_to_filled_scores.getD i 0)).getD 0

end GameData

/-! ### src/play.rs

play.rs is written against an older `Hand` API (`new_with_random_n_dice`,
`remove_dice(&mask)`, `add_dice`) whose implementation is not among the
sources; those three helpers are modelled from the spec below.  The phase
machine itself (`transition_phase`, `progress`) is embedded from play.rs. -/

/-- `PlayPhaseError` of play.rs. -/
inductive PlayPhaseError where
  | UnexpectedPlayPhase
  | UnexpectedRollCount
  | FinishedPlay
  | DisAllowedRoll
  | NoDiceToRoll
deriving DecidableEq

/-- Enum `PlayPhase` of play.rs. -/
inductive PlayPhase where
  | Init
  | Roll (count : Nat)
  | SelectOrReroll (count : Nat)
  | Select
deriving DecidableEq

namespace PlayPhase

/-- `PlayPhase::INIT_ROLL_COUNT`. -/
def INIT_ROLL_COUNT : Nat := 1

/-- `PlayPhase::MAX_ROLL_COUNT`. -/
def MAX_ROLL_COUNT : Nat := 3

end PlayPhase

/-- Modelled from the spec: `Hand::new_with_random_n_dice` (the play.rs-era
Hand constructor is absent from src/).  Spec §4.1: `new_random(n)` produces a
hand of exactly `n` dice, each face drawn from 1..6 by the injectable random
source. -/
def new_with_random_n_dice (num : Nat) (rng : Nat → Fin 6) : List Nat :=
  (List.range num).map (fun i => Die.PIPS.get (Fin.cast rfl (rng i)))

/-- Modelled from the spec: `Hand::remove_dice(&removes)` (absent from src/).
Spec §4.1: `remove(selector)` removes dice according to a boolean mask
aligned with current contents, preserving the relative order of the rest. -/
def remove_dice_by_mask (dice : List Nat) (removes : List Bool) : List Nat :=
  ((dice.zip removes).filter (fun p => !p.2)).map (fun p => p.1)

/-- Modelled from the spec: `Hand::add_dice` (absent from src/).  Spec §4.1:
`add(other)` appends another hand's dice. -/
def add_dice (dice other : List Nat) : List Nat := dice ++ other

/-- Struct `Play` of play.rs: hand pips plus the play-level held flags and
the phase. -/
structure Play where
  player_id : Nat
  hand : List Nat
  is_held : List Bool
  phase : PlayPhase
deriving DecidableEq

namespace Play

/-- `Play::MAX_ROLL_COUNT`. -/
def MAX_ROLL_COUNT : Nat := 3

/-- `Play::new`. -/
def new (player_id : Nat) : Play :=
  { player_id := player_id, hand := [], is_held := List.replicate 5 false, phase := .Init }

/-- `Play::get_is_held_all`. -/
def get_is_held_all (p : Play) : Bool := p.is_held.all (fun x => x)

/-- `Play::hold_all_dice`. -/
def hold_all_dice (p : Play) : Play := { p with is_held := List.replicate 5 true }

/-- `Play::start_first_roll`: draw a fresh five-die hand. -/
def start_first_roll (p : Play) (rng : Nat → Fin 6) : Play :=
  { p with hand := new_with_random_n_dice 5 rng }

/-- `Play::reroll_dice`: only legal in a `Roll` phase; removes the dice whose
play-level held flag is false, packs the held flags to the front, and appends
fresh dice. -/
def reroll_dice (p : Play) (rng : Nat → Fin 6) : Except PlayPhaseError Play :=
  match p.phase with
  | .Roll _ =>
    let removes := p.is_held.map (fun is_heled => !is_heled)
    let hand := remove_dice_by_mask p.hand removes
    let reroll_dices := (removes.filter (fun e => e)).length
    let rests := Hand.DICE_NUM - reroll_dices
    .ok { p with
      hand := add_dice hand (new_with_random_n_dice reroll_dices rng),
      is_held := (List.range Hand.DICE_NUM).map (fun i => decide (i < rests)) }
  | _ => .error .DisAllowedRoll

/-- `Play::transition_phase`. -/
def transition_phase (p : Play) : Except PlayPhaseError PlayPhase :=
  match p.phase with
  | .Init => .ok (.Roll PlayPhase.INIT_ROLL_COUNT)
  | .Roll count =>
    if PlayPhase.INIT_ROLL_COUNT ≤ count ∧ count < PlayPhase.MAX_ROLL_COUNT then
      .ok (.SelectOrReroll count)
    else if count = MAX_ROLL_COUNT then
      .ok .Select
    else
      .error .UnexpectedRollCount
  | .SelectOrReroll count =>
    if PlayPhase.INIT_ROLL_COUNT ≤ count ∧ count < PlayPhase.MAX_ROLL_COUNT then
      if !p.get_is_held_all then
        .ok (.Roll (count + 1))
      else
        .error .NoDiceToRoll
    else
      .error .UnexpectedRollCount
  | .Select => .error .FinishedPlay

/-- `Play::progress`, in state-passing style: the phase is assigned first and
the side effect runs on the already-updated state, so a side-effect failure
would leave the new phase behind (`transition_phase` failures leave the play
untouched).  The `.Roll 1` arm is the Rust `PlayPhase::Roll(INIT_ROLL_COUNT)`
constant pattern; the `.Init` arm is the Rust `_ => bail!(UnexpectedPlayPhase)`
arm. -/
def progress (p : Play) (rng : Nat → Fin 6) : Play × Option PlayPhaseError :=
  match p.transition_phase with
  | .error e => (p, some e)
  | .ok ph =>
    let p1 := { p with phase := ph }
    match ph with
    | .Roll 1 => (p1.start_first_roll rng, none)
    | .Roll _ =>
      match p1.reroll_dice rng with
      | .ok p2 => (p2, none)
      | .error e => (p1, some e)
    | .SelectOrReroll _ => (p1.hold_all_dice, none)
    | .Select => (p1.hold_all_dice, none)
    | .Init => (p1, some .UnexpectedPlayPhase)

end Play

/-! ## Lemmas and theorems -/

/-! Helper lemmas about the hand operations. -/

/-- On a hand respecting the length-at-most-five invariant, the index-based
removal loop of `remove_dice` keeps exactly the held dice, in order. -/
lemma remove_dice_eq_filter (l : List Die) (hlen : l.length ≤ 5) :
    Hand.remove_dice ⟨l⟩ = ⟨l.filter (fun d => d.is_held)⟩ := by
  rcases l with _ | ⟨⟨p1, b1⟩, _ | ⟨⟨p2, b2⟩, _ | ⟨⟨p3, b3⟩, _ | ⟨⟨p4, b4⟩,
    _ | ⟨⟨p5, b5⟩, _ | ⟨d6, l6⟩⟩⟩⟩⟩⟩
  · rfl
  · cases b1 <;> rfl
  · cases b1 <;> cases b2 <;> rfl
  · cases b1 <;> cases b2 <;> cases b3 <;> rfl
  · cases b1 <;> cases b2 <;> cases b3 <;> cases b4 <;> rfl
  · cases b1 <;> cases b2 <;> cases b3 <;> cases b4 <;> cases b5 <;> rfl
  · simp only [List.length_cons] at hlen
    omega

/-- `gen_n_dice` produces exactly `num` dice. -/
lemma length_gen_n_dice (num : Nat) (rng : Nat → Fin 6) :
    (gen_n_dice num rng).length = num := by
  simp [gen_n_dice]

/-- A successful reroll of a hand of at most five dice: the unheld dice are
removed and the hand is refilled to five with fresh dice. -/
lemma reroll_dice_eq_of_not_held_all (h : Hand) (rng : Nat → Fin 6)
    (hlen : h.dice.length ≤ 5)
    (hnot : ¬(h.dice.length = 5 ∧ h.dice.all (fun d => d.is_held) = true)) :
    h.reroll_dice rng =
      .ok ⟨h.dice.filter (fun d => d.is_held) ++
        gen_n_dice (5 - (h.dice.filter (fun d => d.is_held)).length) rng⟩ := by
  have hheld : h.is_held_all = .ok false := by
    unfold Hand.is_held_all
    rw [if_pos (by simpa [Hand.DICE_NUM] using hlen)]
    have : ((h.dice.length == Hand.DICE_NUM) && h.dice.all (fun d => d.is_held)) = false := by
      rw [Bool.and_eq_false_iff]
      by_cases hl : h.dice.length = 5
      · right
        rcases Bool.eq_false_or_eq_true (h.dice.all (fun d => d.is_held)) with ht | hf
        · exact absurd ⟨hl, ht⟩ hnot
        · exact hf
      · left
        simpa [Hand.DICE_NUM] using hl
    rw [this]
  have hfilter : (h.dice.filter (fun d => d.is_held)).length < 5 := by
    have hle : (h.dice.filter (fun d => d.is_held)).length ≤ h.dice.length :=
      List.length_filter_le _ _
    rcases Nat.lt_or_ge (h.dice.filter (fun d => d.is_held)).length 5 with hlt | hge
    · exact hlt
    · exfalso
      have h5 : h.dice.length = 5 := Nat.le_antisymm hlen (le_trans hge hle)
      have hfl : (h.dice.filter (fun d => d.is_held)).length = h.dice.length :=
        Nat.le_antisymm (List.length_filter_le _ _) (h5 ▸ hge)
      have hall : ∀ d : Die, d ∈ h.dice → d.is_held = true := by
        intro d hd
        have h2 := List.filter_length_eq_length.mp hfl
        simpa using h2 d hd
      exact hnot ⟨h5, List.all_eq_true.mpr hall⟩
  unfold Hand.reroll_dice
  rw [hheld]
  have hrm : h.remove_dice = ⟨h.dice.filter (fun d => d.is_held)⟩ := by
    obtain ⟨l⟩ := h
    exact remove_dice_eq_filter l hlen
  rw [hrm]
  unfold Hand.fill_dice
  rw [if_pos (by simpa [Hand.DICE_NUM] using hfilter)]
  simp [Hand.DICE_NUM]

/-- A hand of five dice, all held, cannot be rerolled. -/
lemma reroll_dice_eq_error_of_held_all (h : Hand) (rng : Nat → Fin 6)
    (h5 : h.dice.length = 5) (hall : h.dice.all (fun d => d.is_held) = true) :
    h.reroll_dice rng = .error .NoDiceToReroll := by
  have hheld : h.is_held_all = .ok true := by
    unfold Hand.is_held_all
    rw [if_pos (by simp [Hand.DICE_NUM, h5])]
    simp [Hand.DICE_NUM, h5, hall]
  unfold Hand.reroll_dice
  rw [hheld]

/-- `is_held_all` succeeds exactly on hands of at most five dice, and then
reports "five dice, all held". -/
lemma is_held_all_eq_ok (h : Hand) (b : Bool) :
    h.is_held_all = .ok b ↔
      h.dice.length ≤ 5 ∧ b = ((h.dice.length == 5) && h.dice.all (fun d => d.is_held)) := by
  unfold Hand.is_held_all
  split
  · constructor
    · intro hb
      refine ⟨by simpa [Hand.DICE_NUM] using (by assumption), ?_⟩
      cases hb
      simp [Hand.DICE_NUM]
    · rintro ⟨-, rfl⟩
      simp [Hand.DICE_NUM]
  · constructor
    · intro hb
      cases hb
    · rintro ⟨hle, -⟩
      exact absurd (by simpa [Hand.DICE_NUM] using hle) (by assumption)

/-- C3 counterexample: the claim asserts that `reroll_dice` fails when the hand
has zero dice (and the roll is not the first one), but on the empty hand the
code succeeds and refills the hand to five fresh dice — exactly what the
repository's own `reroll_dice_test` asserts. -/
theorem C3_counterexample_empty_hand_reroll_succeeds :
    Hand.reroll_dice ⟨[]⟩ (fun _ => ⟨0, by decide⟩) =
      .ok ⟨List.replicate 5 (Die.mk 1 false)⟩ := rfl

/-- C3 (amended): over hands respecting the at-most-five-dice invariant,
`reroll_dice` fails (with `NoDiceToReroll`) exactly when the hand has five
dice and every one of them is held; in every other case — the empty hand
included — it succeeds, removing every unheld die and refilling the hand to
five with fresh random dice. -/
theorem C3_reroll_dice_failure_characterization (h : Hand) (rng : Nat → Fin 6)
    (hlen : h.dice.length ≤ Hand.DICE_NUM) :
    (h.dice.length = 5 ∧ h.dice.all (fun d => d.is_held) = true →
      h.reroll_dice rng = .error .NoDiceToReroll) ∧
    (¬(h.dice.length = 5 ∧ h.dice.all (fun d => d.is_held) = true) →
      h.reroll_dice rng = .ok ⟨h.dice.filter (fun d => d.is_held) ++
        gen_n_dice (5 - (h.dice.filter (fun d => d.is_held)).length) rng⟩) := by
  have hlen5 : h.dice.length ≤ 5 := by simpa [Hand.DICE_NUM] using hlen
  exact ⟨fun hp => reroll_dice_eq_error_of_held_all h rng hp.1 hp.2,
    fun hnot => reroll_dice_eq_of_not_held_all h rng hlen5 hnot⟩

/-- Witness for C3: a fully-held five-die hand fails to reroll, and a
two-die hand with one die held rerolls into the held die followed by four
fresh dice. -/
theorem C3_witness :
    Hand.reroll_dice ⟨List.replicate 5 (Die.mk 2 true)⟩ (fun _ => ⟨0, by decide⟩) =
      .error .NoDiceToReroll ∧
    Hand.reroll_dice ⟨[Die.mk 3 true, Die.mk 4 false]⟩ (fun _ => ⟨1, by decide⟩) =
      .ok ⟨[Die.mk 3 true, Die.mk 2 false, Die.mk 2 false, Die.mk 2 false, Die.mk 2 false]⟩ :=
  ⟨(C3_reroll_dice_failure_characterization ⟨List.replicate 5 (Die.mk 2 true)⟩
      (fun _ => ⟨0, by decide⟩) (by decide)).1 (by decide),
   (C3_reroll_dice_failure_characterization ⟨[Die.mk 3 true, Die.mk 4 false]⟩
      (fun _ => ⟨1, by decide⟩) (by decide)).2 (by decide)⟩

/-- C7: whenever `reroll_dice` succeeds (i.e. `remove_dice` followed by the
refill is applied), the resulting hand has exactly five dice, and the held
dice keep their pip values and relative order, appearing before the freshly
rolled dice. -/
theorem C7_reroll_dice_success_shape (h : Hand) (rng : Nat → Fin 6) (h' : Hand)
    (hok : h.reroll_dice rng = .ok h') :
    h'.dice.length = 5 ∧
    h'.dice = h.dice.filter (fun d => d.is_held) ++
      gen_n_dice (5 - (h.dice.filter (fun d => d.is_held)).length) rng := by
  have hcases : h.is_held_all = .ok false := by
    unfold Hand.reroll_dice at hok
    cases hh : h.is_held_all with
    | error e => rw [hh] at hok; cases hok
    | ok b =>
      cases b with
      | true => rw [hh] at hok; cases hok
      | false => rfl
  obtain ⟨hlen, hb⟩ := (is_held_all_eq_ok h false).mp hcases
  have hnot : ¬(h.dice.length = 5 ∧ h.dice.all (fun d => d.is_held) = true) := by
    rintro ⟨h5, hall⟩
    rw [h5, hall] at hb
    simp at hb
  have heq := reroll_dice_eq_of_not_held_all h rng hlen hnot
  rw [heq] at hok
  have hd : h' = ⟨h.dice.filter (fun d => d.is_held) ++
      gen_n_dice (5 - (h.dice.filter (fun d => d.is_held)).length) rng⟩ := by
    cases hok
    rfl
  subst hd
  refine ⟨?_, rfl⟩
  have hfle : (h.dice.filter (fun d => d.is_held)).length ≤ h.dice.length :=
    List.length_filter_le _ _
  simp only [List.length_append, length_gen_n_dice]
  omega

/-- Witness for C7: rerolling a two-die hand whose first die is held yields
the held die followed by four fresh dice. -/
theorem C7_witness :
    (⟨[Die.mk 6 true, Die.mk 3 false, Die.mk 3 false, Die.mk 3 false, Die.mk 3 false]⟩ :
        Hand).dice.length = 5 ∧
    (⟨[Die.mk 6 true, Die.mk 3 false, Die.mk 3 false, Die.mk 3 false, Die.mk 3 false]⟩ :
        Hand).dice =
      (⟨[Die.mk 6 true, Die.mk 1 false]⟩ : Hand).dice.filter (fun d => d.is_held) ++
        gen_n_dice (5 - ((⟨[Die.mk 6 true, Die.mk 1 false]⟩ : Hand).dice.filter
          (fun d => d.is_held)).length) (fun _ => ⟨2, by decide⟩) :=
  C7_reroll_dice_success_shape ⟨[Die.mk 6 true, Die.mk 1 false]⟩
    (fun _ => ⟨2, by decide⟩)
    ⟨[Die.mk 6 true, Die.mk 3 false, Die.mk 3 false, Die.mk 3 false, Die.mk 3 false]⟩
    (by rfl)

/-- C10: `hold_all` on a hand with fewer than five dice marks every present
die held and still returns the `NotFullyFilled` error — the held marks persist
despite the failure; on a hand of exactly five dice it marks all five held and
succeeds. -/
theorem C10_hold_all_characterization (h : Hand) :
    (h.dice.length < 5 →
      h.hold_all =
        (⟨h.dice.map (fun d => { d with is_held := true })⟩, some .NotFullyFilled)) ∧
    (h.dice.length = 5 →
      h.hold_all = (⟨h.dice.map (fun d => { d with is_held := true })⟩, none)) := by
  constructor
  · intro hlt
    unfold Hand.hold_all
    rw [if_pos (by simp [Hand.DICE_NUM]; omega)]
    have hh : (Hand.mk (h.dice.map (fun d => { d with is_held := true }))).is_held_all =
        .ok false := by
      rw [is_held_all_eq_ok]
      refine ⟨by simpa using Nat.le_of_lt hlt, ?_⟩
      have : (h.dice.map (fun d => { d with is_held := true })).length = h.dice.length := by
        simp
      rw [Bool.eq_iff_iff]
      simp [this]
      omega
    simp only [hh]
  · intro h5
    unfold Hand.hold_all
    rw [if_pos (by simp [Hand.DICE_NUM, h5])]
    have hh : (Hand.mk (h.dice.map (fun d => { d with is_held := true }))).is_held_all =
        .ok true := by
      rw [is_held_all_eq_ok]
      refine ⟨by simpa using Nat.le_of_eq h5, ?_⟩
      simp [h5, List.all_map, Function.comp]
    simp only [hh]

/-- Witness for C10: a one-die unheld hand gets its die marked held yet
reports `NotFullyFilled`; a five-die hand is fully held and succeeds. -/
theorem C10_witness :
    Hand.hold_all ⟨[Die.mk 4 false]⟩ = (⟨[Die.mk 4 true]⟩, some .NotFullyFilled) ∧
    Hand.hold_all ⟨List.replicate 5 (Die.mk 4 false)⟩ =
      (⟨List.replicate 5 (Die.mk 4 true)⟩, none) :=
  ⟨(C10_hold_all_characterization ⟨[Die.mk 4 false]⟩).1 (by decide),
   (C10_hold_all_characterization ⟨List.replicate 5 (Die.mk 4 false)⟩).2 (by decide)⟩

/-! Helper lemmas for the scoring proofs. -/

/-- A face occurring at least `n ≥ 1` times in `l` already occurs in the
prefix of length `l.length - n + 1` (pigeonhole on the remaining suffix). -/
lemma mem_take_of_le_count (l : List Nat) (v n : Nat) (hn : 1 ≤ n)
    (hcount : n ≤ l.count v) : v ∈ l.take (l.length - n + 1) := by
  have hsplit := List.count_append v (l.take (l.length - n + 1)) (l.drop (l.length - n + 1))
  rw [List.take_append_drop] at hsplit
  have hdrop : (l.drop (l.length - n + 1)).count v ≤ l.length - (l.length - n + 1) := by
    have := List.count_le_length v (l.drop (l.length - n + 1))
    simpa using this
  have hlen : n ≤ l.length := le_trans hcount (List.count_le_length v l)
  have hpos : 0 < (l.take (l.length - n + 1)).count v := by omega
  exact List.count_pos_iff.mp hpos

/-- Two distinct values cannot jointly occur more often than the length. -/
lemma count_add_count_le_length (l : List Nat) (x y : Nat) (hxy : x ≠ y) :
    l.count x + l.count y ≤ l.length := by
  induction l with
  | nil => simp
  | cons a t ih =>
    by_cases hax : x = a
    · subst hax
      rw [List.count_cons_self, List.count_cons_of_ne (Ne.symm hxy)]
      simp only [List.length_cons]
      omega
    · by_cases hay : y = a
      · subst hay
        rw [List.count_cons_self, List.count_cons_of_ne hxy]
        simp only [List.length_cons]
        omega
      · rw [List.count_cons_of_ne hax, List.count_cons_of_ne hay]
        simp only [List.length_cons]
        omega

/-- If two distinct values account for the whole length of a list, every
element of the list is one of them. -/
lemma eq_or_eq_of_count_add_count_eq_length (l : List Nat) (x y : Nat) (hxy : x ≠ y)
    (hsum : l.count x + l.count y = l.length) :
    ∀ z ∈ l, z = x ∨ z = y := by
  induction l with
  | nil => simp
  | cons a t ih =>
    intro z hz
    by_cases hax : x = a
    · subst hax
      rcases List.mem_cons.mp hz with rfl | hzt
      · exact Or.inl rfl
      · refine ih ?_ z hzt
        rw [List.count_cons_self, List.count_cons_of_ne (Ne.symm hxy)] at hsum
        simp only [List.length_cons] at hsum
        omega
    · by_cases hay : y = a
      · subst hay
        rcases List.mem_cons.mp hz with rfl | hzt
        · exact Or.inr rfl
        · refine ih ?_ z hzt
          rw [List.count_cons_self, List.count_cons_of_ne hxy] at hsum
          simp only [List.length_cons] at hsum
          omega
      · exfalso
        rw [List.count_cons_of_ne hax, List.count_cons_of_ne hay] at hsum
        simp only [List.length_cons] at hsum
        have := count_add_count_le_length t x y hxy
        omega

/-- A list of length five is an explicit five-element list. -/
lemma exists_eq_five (l : List Nat) (h : l.length = 5) :
    ∃ a b c d e, l = [a, b, c, d, e] := by
  rcases l with _ | ⟨a, _ | ⟨b, _ | ⟨c, _ | ⟨d, _ | ⟨e, _ | ⟨f, t⟩⟩⟩⟩⟩⟩ <;>
    simp only [List.length_cons, List.length_nil] at h <;>
    first
      | omega
      | exact ⟨a, b, c, d, e, rfl⟩

/-- Scanning the prefix of length `l.length - n + 1` for a face of
multiplicity at least `n` is the same as scanning the whole hand. -/
lemma any_take_count_eq (l : List Nat) (n : Nat) (hn : 1 ≤ n) :
    (l.take (l.length - n + 1)).any (fun d => n ≤ l.count d) =
      l.any (fun d => n ≤ l.count d) := by
  rw [Bool.eq_iff_iff]
  simp only [List.any_eq_true, decide_eq_true_eq]
  constructor
  · rintro ⟨d, hd, hc⟩
    exact ⟨d, List.mem_of_mem_take hd, hc⟩
  · rintro ⟨d, hd, hc⟩
    exact ⟨d, mem_take_of_le_count l d n hn hc, hc⟩

/-- C5: for a hand of five pips in 1..6, ThreeOfAKind (resp. FourOfAKind)
scores the sum of all five dice when at least 3 (resp. 4) dice share a face,
and 0 otherwise — the restriction of the scan to the first `5-n+1` positions
loses nothing, by pigeonhole. -/
theorem C5_n_of_a_kind_scans_all_faces (dice : List Nat) (hlen : dice.length = 5)
    (_hpips : ∀ d ∈ dice, 1 ≤ d ∧ d ≤ 6) :
    scoring .ThreeOfaAKind dice =
      some (if dice.any (fun d => 3 ≤ dice.count d) then dice.sum else 0) ∧
    scoring .FourOfaAKind dice =
      some (if dice.any (fun d => 4 ≤ dice.count d) then dice.sum else 0) := by
  have h3 := any_take_count_eq dice 3 (by omega)
  have h4 := any_take_count_eq dice 4 (by omega)
  rw [hlen] at h3 h4
  constructor
  · unfold scoring
    rw [if_neg (by simp [Hand.DICE_NUM, hlen])]
    simp only [three_of_a_kind, n_of_a_kind, Hand.DICE_NUM]
    simp [h3]
  · unfold scoring
    rw [if_neg (by simp [Hand.DICE_NUM, hlen])]
    simp only [four_of_a_kind, n_of_a_kind, Hand.DICE_NUM]
    simp [h4]

/-- Witness for C5: `[1,3,3,3,6]` has three 3s, scoring 16 for ThreeOfAKind
and 0 for FourOfAKind. -/
theorem C5_witness :
    scoring .ThreeOfaAKind [1, 3, 3, 3, 6] = some 16 ∧
    scoring .FourOfaAKind [1, 3, 3, 3, 6] = some 0 :=
  C5_n_of_a_kind_scans_all_faces [1, 3, 3, 3, 6] (by decide) (by decide)

/-- The full-house pattern test of the code is equivalent to "exactly two
distinct faces with multiplicities two and three". -/
lemma full_house_cond_iff (dice : List Nat) (a b c d e : Nat)
    (hseq : dice.mergeSort = [a, b, c, d, e]) :
    (a ≠ e ∧ ([a, b, c, d, e] = [a, a, a, e, e] ∨ [a, b, c, d, e] = [a, a, e, e, e])) ↔
    (∃ x y : Nat, x ≠ y ∧ dice.count x = 2 ∧ dice.count y = 3) := by
  have hperm : List.Perm dice.mergeSort dice := List.mergeSort_perm dice _
  have hcnt : ∀ z : Nat, dice.count z = List.count z [a, b, c, d, e] := by
    intro z
    rw [← hseq]
    exact (hperm.count_eq z).symm
  constructor
  · rintro ⟨hne, hp | hp⟩
    · refine ⟨e, a, Ne.symm hne, ?_, ?_⟩
      · rw [hcnt e, hp]
        rw [List.count_cons_of_ne (Ne.symm hne), List.count_cons_of_ne (Ne.symm hne),
          List.count_cons_of_ne (Ne.symm hne), List.count_cons_self, List.count_cons_self]
        rfl
      · rw [hcnt a, hp]
        rw [List.count_cons_self, List.count_cons_self, List.count_cons_self,
          List.count_cons_of_ne hne, List.count_cons_of_ne hne]
        rfl
    · refine ⟨a, e, hne, ?_, ?_⟩
      · rw [hcnt a, hp]
        rw [List.count_cons_self, List.count_cons_self, List.count_cons_of_ne hne,
          List.count_cons_of_ne hne, List.count_cons_of_ne hne]
        rfl
      · rw [hcnt e, hp]
        rw [List.count_cons_of_ne (Ne.symm hne), List.count_cons_of_ne (Ne.symm hne),
          List.count_cons_self, List.count_cons_self, List.count_cons_self]
        rfl
  · rintro ⟨x, y, hxy, h2, h3⟩
    have h2s : List.count x [a, b, c, d, e] = 2 := by rw [← hcnt x]; exact h2
    have h3s : List.count y [a, b, c, d, e] = 3 := by rw [← hcnt y]; exact h3
    have hall := eq_or_eq_of_count_add_count_eq_length [a, b, c, d, e] x y hxy
      (by rw [h2s, h3s]; rfl)
    have hsort : ([a, b, c, d, e] : List Nat).Sorted (· ≤ ·) := by
      rw [← hseq]
      exact List.sorted_mergeSort' dice
    simp only [List.sorted_cons, List.mem_cons, List.mem_singleton, List.not_mem_nil,
      forall_eq_or_imp, forall_eq, List.Sorted] at hsort
    have ha := hall a (by simp)
    have hb := hall b (by simp)
    have hc := hall c (by simp)
    have hd := hall d (by simp)
    have he := hall e (by simp)
    rcases ha with rfl | rfl <;> rcases hb with rfl | rfl <;> rcases hc with rfl | rfl <;>
      rcases hd with rfl | rfl <;> rcases he with rfl | rfl <;>
      simp_all [List.count_cons_self, List.count_cons_of_ne] <;>
      omega

/-- Five identical dice never form a full house: only one distinct face. -/
lemma full_house_replicate (v : Nat) : full_house (List.replicate 5 v) = 0 := by
  have hrep : List.replicate 5 v = [v, v, v, v, v] := rfl
  have hsorted : (List.replicate 5 v).Sorted (· ≤ ·) := by
    rw [hrep]
    simp [List.sorted_cons]
  have hms : (List.replicate 5 v).mergeSort = List.replicate 5 v :=
    List.mergeSort_eq_self hsorted
  unfold full_house
  rw [hms, hrep]
  rw [if_neg]
  rintro ⟨hne, -⟩
  simp [Hand.DICE_NUM] at hne

/-- C6: for a hand of five pips in 1..6, FullHouse scores 25 exactly when the
multiset of faces has two distinct values with multiplicities two and three,
and 0 otherwise; a hand of five identical dice scores 0. -/
theorem C6_full_house_characterization (dice : List Nat) (hlen : dice.length = 5)
    (_hpips : ∀ d ∈ dice, 1 ≤ d ∧ d ≤ 6) :
    ((∃ x y : Nat, x ≠ y ∧ dice.count x = 2 ∧ dice.count y = 3) →
      scoring .FullHouse dice = some 25) ∧
    (¬(∃ x y : Nat, x ≠ y ∧ dice.count x = 2 ∧ dice.count y = 3) →
      scoring .FullHouse dice = some 0) ∧
    (∀ v : Nat, scoring .FullHouse (List.replicate 5 v) = some 0) := by
  have hs5 : dice.mergeSort.length = 5 := by
    rw [List.length_mergeSort, hlen]
  obtain ⟨a, b, c, d, e, hseq⟩ := exists_eq_five _ hs5
  have hiff := full_house_cond_iff dice a b c d e hseq
  have hfh : full_house dice =
      if a ≠ e ∧ ([a, b, c, d, e] = [a, a, a, e, e] ∨ [a, b, c, d, e] = [a, a, e, e, e]) then
        25
      else 0 := by
    unfold full_house
    rw [hseq]
    rfl
  have hlen' : dice.length ≠ Hand.DICE_NUM → False := by
    simp [Hand.DICE_NUM, hlen]
  refine ⟨?_, ?_, ?_⟩
  · intro hex
    unfold scoring
    rw [if_neg (by simp [Hand.DICE_NUM, hlen])]
    simp only
    rw [hfh, if_pos (hiff.mpr hex)]
  · intro hnex
    unfold scoring
    rw [if_neg (by simp [Hand.DICE_NUM, hlen])]
    simp only
    rw [hfh, if_neg (fun hc => hnex (hiff.mp hc))]
  · intro v
    unfold scoring
    rw [if_neg (by simp [Hand.DICE_NUM])]
    simp only
    rw [full_house_replicate]

/-- Witness for C6: `[3,3,4,4,4]` is a full house (25); `[4,5,1,4,5]` is not
(0); five fives score 0. -/
theorem C6_witness :
    scoring .FullHouse [3, 3, 4, 4, 4] = some 25 ∧
    scoring .FullHouse [4, 5, 1, 4, 5] = some 0 ∧
    scoring .FullHouse [5, 5, 5, 5, 5] = some 0 := by
  refine ⟨?_, ?_, ?_⟩
  · exact (C6_full_house_characterization [3, 3, 4, 4, 4] (by decide) (by decide)).1
      ⟨3, 4, by decide, by decide, by decide⟩
  · refine (C6_full_house_characterization [4, 5, 1, 4, 5] (by decide) (by decide)).2.1 ?_
    rintro ⟨x, y, hxy, h2, h3⟩
    have hx : x ∈ [4, 5, 1, 4, 5] := List.count_pos_iff.mp (by omega)
    have hy : y ∈ [4, 5, 1, 4, 5] := List.count_pos_iff.mp (by omega)
    fin_cases hx <;> fin_cases hy <;> simp_all
  · exact (C6_full_house_characterization [3, 3, 4, 4, 4] (by decide) (by decide)).2.2 5

/-- The current upper subtotal never exceeds the maximum possible upper
subtotal. -/
lemma get_total_upper_score_le_max (t : ScoreTable) :
    t.get_total_upper_score ≤ t.max_possible_upper_score := by
  unfold ScoreTable.get_total_upper_score ScoreTable.max_possible_upper_score
  apply List.sum_le_sum
  intro p hp
  cases hscore : (t.table p.1).score with
  | none =>
    simp [ScoreTable.get_score, ScoreTable.has_score_in, Record.is_filled,
      Record.get_score, hscore]
  | some s =>
    simp [ScoreTable.get_score, ScoreTable.has_score_in, Record.is_filled,
      Record.get_score, hscore]

/-- C2: `calculate_bonus` returns `some 35` when the upper subtotal reaches
63; `some 0` when even the maximum possible upper subtotal stays below 63;
and `none` when the threshold is not yet met but still reachable. -/
theorem C2_calculate_bonus_three_valued (t : ScoreTable) :
    (63 ≤ t.get_total_upper_score → t.calculate_bonus = some 35) ∧
    (t.max_possible_upper_score < 63 → t.calculate_bonus = some 0) ∧
    (t.get_total_upper_score < 63 → 63 ≤ t.max_possible_upper_score →
      t.calculate_bonus = none) := by
  have hBT : ScoreTable.BONUS_THRESHOLD = 63 := rfl
  unfold ScoreTable.calculate_bonus
  refine ⟨?_, ?_, ?_⟩
  · intro h
    rw [if_pos (by omega)]
    rfl
  · intro h
    have hle := get_total_upper_score_le_max t
    rw [if_neg (by omega), if_neg (by omega)]
  · intro h1 h2
    rw [if_neg (by omega), if_pos (by omega)]

/-- Witness for C2: an upper section filled with three of each face reaches
63 (bonus 35); filled with two of each face it is stuck at 42 and every
upper category is filled, so the bonus is settled at 0; a table with only
Aces = 3 filled still has 63 reachable, so the bonus is undecided. -/
theorem C2_witness :
    ScoreTable.calculate_bonus ⟨fun b => match b with
      | .Aces => ⟨some 3⟩ | .Twos => ⟨some 6⟩ | .Threes => ⟨some 9⟩
      | .Fours => ⟨some 12⟩ | .Fives => ⟨some 15⟩ | .Sixes => ⟨some 18⟩
      | _ => ⟨none⟩⟩ = some 35 ∧
    ScoreTable.calculate_bonus ⟨fun b => match b with
      | .Aces => ⟨some 2⟩ | .Twos => ⟨some 4⟩ | .Threes => ⟨some 6⟩
      | .Fours => ⟨some 8⟩ | .Fives => ⟨some 10⟩ | .Sixes => ⟨some 12⟩
      | _ => ⟨none⟩⟩ = some 0 ∧
    ScoreTable.calculate_bonus ⟨fun b => match b with
      | .Aces => ⟨some 3⟩
      | _ => ⟨none⟩⟩ = none := by
  refine ⟨?_, ?_, ?_⟩
  · exact (C2_calculate_bonus_three_valued _).1 (by decide)
  · exact (C2_calculate_bonus_three_valued _).2.1 (by decide)
  · exact (C2_calculate_bonus_three_valued _).2.2 (by decide) (by decide)

/-- C8: `confirm_score` on an already-filled category fails with
`TryToFillFilledRecord` and leaves every category's record unchanged; on an
unfilled category it succeeds and the category then holds exactly the given
score. -/
theorem C8_confirm_score_fill_once (t : ScoreTable) (b : Boxes) (s : Nat) :
    (t.has_score_in b = true →
      (t.confirm_score b s).2 = some .TryToFillFilledRecord ∧
      ∀ c : Boxes, (t.confirm_score b s).1.table c = t.table c) ∧
    (t.has_score_in b = false →
      (t.confirm_score b s).2 = none ∧
      (t.confirm_score b s).1.get_score b = some s) := by
  constructor
  · intro hfilled
    have hf : (t.table b).fill s = ((t.table b), some .TryToFillFilledRecord) := by
      unfold Record.fill
      rw [if_pos (by simpa [ScoreTable.has_score_in] using hfilled)]
    unfold ScoreTable.confirm_score
    rw [hf]
    refine ⟨rfl, fun c => ?_⟩
    by_cases hc : c = b
    · subst hc
      simp
    · simp [hc]
  · intro hunfilled
    have hf : (t.table b).fill s = (⟨some s⟩, none) := by
      unfold Record.fill
      rw [if_neg (by simp [ScoreTable.has_score_in] at hunfilled; simp [hunfilled])]
    unfold ScoreTable.confirm_score
    rw [hf]
    exact ⟨rfl, by simp [ScoreTable.get_score, Record.get_score]⟩

/-- Witness for C8: on a table whose only filled cell is Chance = 21,
re-confirming Chance fails and changes nothing, while confirming Aces
records the new score. -/
theorem C8_witness :
    ((ScoreTable.confirm_score ⟨fun b => match b with
        | .Chance => ⟨some 21⟩ | _ => ⟨none⟩⟩ .Chance 9).2 = some .TryToFillFilledRecord ∧
      ∀ c : Boxes, (ScoreTable.confirm_score ⟨fun b => match b with
        | .Chance => ⟨some 21⟩ | _ => ⟨none⟩⟩ .Chance 9).1.table c =
          (⟨fun b => match b with
            | .Chance => ⟨some 21⟩ | _ => ⟨none⟩⟩ : ScoreTable).table c) ∧
    ((ScoreTable.confirm_score ⟨fun b => match b with
        | .Chance => ⟨some 21⟩ | _ => ⟨none⟩⟩ .Aces 3).2 = none ∧
      (ScoreTable.confirm_score ⟨fun b => match b with
        | .Chance => ⟨some 21⟩ | _ => ⟨none⟩⟩ .Aces 3).1.get_score .Aces = some 3) :=
  ⟨(C8_confirm_score_fill_once ⟨fun b => match b with
      | .Chance => ⟨some 21⟩ | _ => ⟨none⟩⟩ .Chance 9).1 (by decide),
   (C8_confirm_score_fill_once ⟨fun b => match b with
      | .Chance => ⟨some 21⟩ | _ => ⟨none⟩⟩ .Aces 3).2 (by decide)⟩

/-- C9: the speculative total is a pure function of the table (the embedding
mutates nothing by construction); when `b` is unfilled it equals the total
after `confirm_score b s`, and when `b` is filled the hypothetical score is
ignored and it equals the real total. -/
theorem C9_total_if_filled_by_agrees (t : ScoreTable) (b : Boxes) (s : Nat) :
    (t.has_score_in b = false →
      t.get_total_score_if_filled_by b s = (t.confirm_score b s).1.get_total_score) ∧
    (t.has_score_in b = true →
      t.get_total_score_if_filled_by b s = t.get_total_score) := by
  constructor
  · intro hunfilled
    have hfill : (t.table b).fill s = (⟨some s⟩, none) := by
      unfold Record.fill
      rw [if_neg (by simp [ScoreTable.has_score_in] at hunfilled; simp [hunfilled])]
    unfold ScoreTable.get_total_score_if_filled_by ScoreTable.confirm_score
    rw [hfill, if_neg (by simp [hunfilled])]
    rfl
  · intro hfilled
    unfold ScoreTable.get_total_score_if_filled_by
    rw [if_pos (by simp [hfilled])]

/-- Witness for C9: with only Chance = 21 filled, projecting Aces = 3 equals
the total after actually confirming Aces = 3, and projecting onto the filled
Chance cell returns the real total. -/
theorem C9_witness :
    (ScoreTable.get_total_score_if_filled_by ⟨fun b => match b with
        | .Chance => ⟨some 21⟩ | _ => ⟨none⟩⟩ .Aces 3 =
      ((ScoreTable.confirm_score ⟨fun b => match b with
        | .Chance => ⟨some 21⟩ | _ => ⟨none⟩⟩ .Aces 3).1).get_total_score) ∧
    (ScoreTable.get_total_score_if_filled_by ⟨fun b => match b with
        | .Chance => ⟨some 21⟩ | _ => ⟨none⟩⟩ .Chance 100 =
      ScoreTable.get_total_score ⟨fun b => match b with
        | .Chance => ⟨some 21⟩ | _ => ⟨none⟩⟩) :=
  ⟨(C9_total_if_filled_by_agrees ⟨fun b => match b with
      | .Chance => ⟨some 21⟩ | _ => ⟨none⟩⟩ .Aces 3).1 (by decide),
   (C9_total_if_filled_by_agrees ⟨fun b => match b with
      | .Chance => ⟨some 21⟩ | _ => ⟨none⟩⟩ .Chance 100).2 (by decide)⟩

/-- `find?` over `range' s n` characterized: a hit is the least index in
`[s, s+n)` satisfying the predicate. -/
lemma range'_find?_eq_some (p : Nat → Bool) :
    ∀ n s a, (List.range' s n).find? p = some a →
      p a = true ∧ s ≤ a ∧ a < s + n ∧ ∀ j, s ≤ j → j < a → p j = false := by
  intro n
  induction n with
  | zero => intro s a h; simp at h
  | succ n ih =>
    intro s a h
    rw [List.range'_succ] at h
    cases hp : p s with
    | true =>
      rw [List.find?_cons_of_pos _ hp] at h
      cases h
      exact ⟨hp, Nat.le_refl s, by omega, fun j h1 h2 =>
        absurd (Nat.lt_of_le_of_lt h1 h2) (Nat.lt_irrefl s)⟩
    | false =>
      rw [List.find?_cons_of_neg _ (by simp [hp])] at h
      obtain ⟨hpa, hsa, hlt, hmin⟩ := ih (s + 1) a h
      refine ⟨hpa, by omega, by omega, fun j h1 h2 => ?_⟩
      rcases Nat.eq_or_lt_of_le h1 with rfl | hgt
      · exact hp
      · exact hmin j hgt h2

/-- C4: `current_player_id` returns the first index `i ≥ 1` whose filled
count is strictly below that of player `i-1`, and 0 when no such index
exists. -/
theorem C4_current_player_id_first_drop (g : GameData)
    (hpos : 0 < g.get_num_players) (_hwf : g.scores.length = g.get_num_players) :
    (g.current_player_id = 0 ∧
      ∀ j, 1 ≤ j → j < g.get_num_players →
        ¬(g.pid_to_filled_scores.getD j 0 < g.pid_to_filled_scores.getD (j - 1) 0)) ∨
    (1 ≤ g.current_player_id ∧ g.current_player_id < g.get_num_players ∧
      g.pid_to_filled_scores.getD g.current_player_id 0 <
        g.pid_to_filled_scores.getD (g.current_player_id - 1) 0 ∧
      ∀ j, 1 ≤ j → j < g.current_player_id →
        ¬(g.pid_to_filled_scores.getD j 0 < g.pid_to_filled_scores.getD (j - 1) 0)) := by
  unfold GameData.current_player_id
  cases hfind : (List.range' 1 (g.get_num_players - 1)).find? (fun i =>
      g.pid_to_filled_scores.getD (i - 1) 0 > g.pid_to_filled_scores.getD i 0) with
  | none =>
    left
    refine ⟨rfl, fun j h1 h2 => ?_⟩
    have hmem : j ∈ List.range' 1 (g.get_num_players - 1) := by
      rw [List.mem_range'_1]
      omega
    have := List.find?_eq_none.mp hfind j hmem
    simpa using this
  | some a =>
    right
    obtain ⟨hpa, h1a, h2a, hmin⟩ := range'_find?_eq_some _ _ _ _ hfind
    refine ⟨by simpa using h1a, by simpa using (by omega : a < g.get_num_players), ?_, ?_⟩
    · simpa using hpa
    · intro j hj1 hj2
      have := hmin j hj1 (by simpa using hj2)
      simpa using this

/-- Witness for C4: in a two-player game where player 0 has one filled
category and player 1 has none, the characterization picks index 1. -/
theorem C4_witness :
    ((⟨2, [⟨fun b => match b with | .Chance => ⟨some 21⟩ | _ => ⟨none⟩⟩,
        ⟨fun _ => ⟨none⟩⟩]⟩ : GameData).current_player_id = 0 ∧
      ∀ j, 1 ≤ j → j < (2 : Nat) →
        ¬((⟨2, [⟨fun b => match b with | .Chance => ⟨some 21⟩ | _ => ⟨none⟩⟩,
            ⟨fun _ => ⟨none⟩⟩]⟩ : GameData).pid_to_filled_scores.getD j 0 <
          (⟨2, [⟨fun b => match b with | .Chance => ⟨some 21⟩ | _ => ⟨none⟩⟩,
            ⟨fun _ => ⟨none⟩⟩]⟩ : GameData).pid_to_filled_scores.getD (j - 1) 0)) ∨
    (1 ≤ (⟨2, [⟨fun b => match b with | .Chance => ⟨some 21⟩ | _ => ⟨none⟩⟩,
        ⟨fun _ => ⟨none⟩⟩]⟩ : GameData).current_player_id ∧
      (⟨2, [⟨fun b => match b with | .Chance => ⟨some 21⟩ | _ => ⟨none⟩⟩,
        ⟨fun _ => ⟨none⟩⟩]⟩ : GameData).current_player_id < 2 ∧
      (⟨2, [⟨fun b => match b with | .Chance => ⟨some 21⟩ | _ => ⟨none⟩⟩,
          ⟨fun _ => ⟨none⟩⟩]⟩ : GameData).pid_to_filled_scores.getD
        (⟨2, [⟨fun b => match b with | .Chance => ⟨some 21⟩ | _ => ⟨none⟩⟩,
          ⟨fun _ => ⟨none⟩⟩]⟩ : GameData).current_player_id 0 <
      (⟨2, [⟨fun b => match b with | .Chance => ⟨some 21⟩ | _ => ⟨none⟩⟩,
          ⟨fun _ => ⟨none⟩⟩]⟩ : GameData).pid_to_filled_scores.getD
        ((⟨2, [⟨fun b => match b with | .Chance => ⟨some 21⟩ | _ => ⟨none⟩⟩,
          ⟨fun _ => ⟨none⟩⟩]⟩ : GameData).current_player_id - 1) 0 ∧
      ∀ j, 1 ≤ j →
        j < (⟨2, [⟨fun b => match b with | .Chance => ⟨some 21⟩ | _ => ⟨none⟩⟩,
          ⟨fun _ => ⟨none⟩⟩]⟩ : GameData).current_player_id →
        ¬((⟨2, [⟨fun b => match b with | .Chance => ⟨some 21⟩ | _ => ⟨none⟩⟩,
            ⟨fun _ => ⟨none⟩⟩]⟩ : GameData).pid_to_filled_scores.getD j 0 <
          (⟨2, [⟨fun b => match b with | .Chance => ⟨some 21⟩ | _ => ⟨none⟩⟩,
            ⟨fun _ => ⟨none⟩⟩]⟩ : GameData).pid_to_filled_scores.getD (j - 1) 0)) :=
  C4_current_player_id_first_drop
    ⟨2, [⟨fun b => match b with | .Chance => ⟨some 21⟩ | _ => ⟨none⟩⟩,
      ⟨fun _ => ⟨none⟩⟩]⟩ (by decide) rfl

/-- `transition_phase` never yields the `Init` phase as a next phase, so the
`_ => bail!(UnexpectedPlayPhase)` arm of `progress` is unreachable. -/
lemma transition_phase_ne_ok_init (p : Play) : p.transition_phase ≠ .ok .Init := by
  unfold Play.transition_phase
  rcases hph : p.phase <;> simp only [hph] <;> intro hcontra <;>
    first
      | (split_ifs at hcontra <;> simp at hcontra)
      | simp at hcontra

/-- C1: `progress` realizes exactly the spec's transition table — `Init` to
`Roll 1`; `Roll n` (1 ≤ n < 3) to `SelectOrReroll n`; `Roll 3` to `Select`;
`SelectOrReroll n` (1 ≤ n < 3) to `Roll (n+1)` when some die is unheld and
to a `NoDiceToRoll` failure when all are held; `Select` fails with
`FinishedPlay`; and every failing `progress` leaves the play (hence its
phase) unchanged. -/
theorem C1_progress_transition_table (p : Play) (rng : Nat → Fin 6) :
    (p.phase = .Init →
      (p.progress rng).2 = none ∧ (p.progress rng).1.phase = .Roll 1) ∧
    (∀ n, p.phase = .Roll n → 1 ≤ n → n < 3 →
      (p.progress rng).2 = none ∧ (p.progress rng).1.phase = .SelectOrReroll n) ∧
    (p.phase = .Roll 3 →
      (p.progress rng).2 = none ∧ (p.progress rng).1.phase = .Select) ∧
    (∀ n, p.phase = .SelectOrReroll n → 1 ≤ n → n < 3 → p.get_is_held_all = false →
      (p.progress rng).2 = none ∧ (p.progress rng).1.phase = .Roll (n + 1)) ∧
    (∀ n, p.phase = .SelectOrReroll n → 1 ≤ n → n < 3 → p.get_is_held_all = true →
      p.progress rng = (p, some .NoDiceToRoll)) ∧
    (p.phase = .Select → p.progress rng = (p, some .FinishedPlay)) ∧
    (∀ e, (p.progress rng).2 = some e → (p.progress rng).1 = p) := by
  refine ⟨?_, ?_, ?_, ?_, ?_, ?_, ?_⟩
  · intro hp
    unfold Play.progress Play.transition_phase
    rw [hp]
    exact ⟨rfl, rfl⟩
  · intro n hp h1 h3
    have htr : p.transition_phase = .ok (.SelectOrReroll n) := by
      unfold Play.transition_phase
      rw [hp]
      dsimp only
      rw [if_pos (by constructor <;>
        simpa [PlayPhase.INIT_ROLL_COUNT, PlayPhase.MAX_ROLL_COUNT])]
    unfold Play.progress
    rw [htr]
    exact ⟨rfl, rfl⟩
  · intro hp
    have htr : p.transition_phase = .ok .Select := by
      unfold Play.transition_phase
      rw [hp]
      dsimp only
      rw [if_neg (by simp [PlayPhase.INIT_ROLL_COUNT, PlayPhase.MAX_ROLL_COUNT]),
        if_pos (by simp [Play.MAX_ROLL_COUNT])]
    unfold Play.progress
    rw [htr]
    exact ⟨rfl, rfl⟩
  · intro n hp h1 h3 hheld
    have htr : p.transition_phase = .ok (.Roll (n + 1)) := by
      unfold Play.transition_phase
      rw [hp]
      dsimp only
      rw [if_pos (by constructor <;>
        simpa [PlayPhase.INIT_ROLL_COUNT, PlayPhase.MAX_ROLL_COUNT]),
        if_pos (by simp [hheld])]
    unfold Play.progress
    rw [htr]
    interval_cases n
    · exact ⟨rfl, rfl⟩
    · exact ⟨rfl, rfl⟩
  · intro n hp h1 h3 hheld
    have htr : p.transition_phase = .error .NoDiceToRoll := by
      unfold Play.transition_phase
      rw [hp]
      dsimp only
      rw [if_pos (by constructor <;>
        simpa [PlayPhase.INIT_ROLL_COUNT, PlayPhase.MAX_ROLL_COUNT]),
        if_neg (by simp [hheld])]
    unfold Play.progress
    rw [htr]
  · intro hp
    have htr : p.transition_phase = .error .FinishedPlay := by
      unfold Play.transition_phase
      rw [hp]
    unfold Play.progress
    rw [htr]
  · intro e hsome
    unfold Play.progress at hsome ⊢
    cases htr : p.transition_phase with
    | error e2 => rfl
    | ok ph =>
      rw [htr] at hsome
      exfalso
      cases ph with
      | Init => exact transition_phase_ne_ok_init p htr
      | Roll m =>
        rcases m with _ | _ | k <;> simp [Play.reroll_dice] at hsome
      | SelectOrReroll m => simp at hsome
      | Select => simp at hsome

/-- Witness for C1: the six transition kinds at concrete plays — `Init`
starts `Roll 1`; `Roll 1` freezes into `SelectOrReroll 1`; `Roll 3` forces
`Select`; `SelectOrReroll 1` with an unheld die rerolls into `Roll 2`;
`SelectOrReroll 2` with all dice held fails with `NoDiceToRoll` leaving the
play unchanged; `Select` fails with `FinishedPlay` leaving the play
unchanged. -/
theorem C1_witness :
    ((Play.progress ⟨0, [], List.replicate 5 false, .Init⟩ (fun _ => ⟨0, by decide⟩)).2 = none ∧
      (Play.progress ⟨0, [], List.replicate 5 false, .Init⟩
        (fun _ => ⟨0, by decide⟩)).1.phase = .Roll 1) ∧
    ((Play.progress ⟨0, [2, 2, 3, 4, 5], List.replicate 5 false, .Roll 1⟩
        (fun _ => ⟨0, by decide⟩)).2 = none ∧
      (Play.progress ⟨0, [2, 2, 3, 4, 5], List.replicate 5 false, .Roll 1⟩
        (fun _ => ⟨0, by decide⟩)).1.phase = .SelectOrReroll 1) ∧
    ((Play.progress ⟨0, [2, 2, 3, 4, 5], List.replicate 5 false, .Roll 3⟩
        (fun _ => ⟨0, by decide⟩)).2 = none ∧
      (Play.progress ⟨0, [2, 2, 3, 4, 5], List.replicate 5 false, .Roll 3⟩
        (fun _ => ⟨0, by decide⟩)).1.phase = .Select) ∧
    ((Play.progress ⟨0, [2, 2, 3, 4, 5], [true, true, true, true, false], .SelectOrReroll 1⟩
        (fun _ => ⟨0, by decide⟩)).2 = none ∧
      (Play.progress ⟨0, [2, 2, 3, 4, 5], [true, true, true, true, false], .SelectOrReroll 1⟩
        (fun _ => ⟨0, by decide⟩)).1.phase = .Roll 2) ∧
    (Play.progress ⟨0, [2, 2, 3, 4, 5], List.replicate 5 true, .SelectOrReroll 2⟩
        (fun _ => ⟨0, by decide⟩) =
      (⟨0, [2, 2, 3, 4, 5], List.replicate 5 true, .SelectOrReroll 2⟩, some .NoDiceToRoll)) ∧
    (Play.progress ⟨0, [2, 2, 3, 4, 5], List.replicate 5 true, .Select⟩
        (fun _ => ⟨0, by decide⟩) =
      (⟨0, [2, 2, 3, 4, 5], List.replicate 5 true, .Select⟩, some .FinishedPlay)) :=
  ⟨(C1_progress_transition_table _ _).1 rfl,
   (C1_progress_transition_table _ _).2.1 1 rfl (by decide) (by decide),
   (C1_progress_transition_table _ _).2.2.1 rfl,
   (C1_progress_transition_table _ _).2.2.2.1 1 rfl (by decide) (by decide) (by decide),
   (C1_progress_transition_table _ _).2.2.2.2.1 2 rfl (by decide) (by decide) (by decide),
   (C1_progress_transition_table _ _).2.2.2.2.2.1 rfl⟩

end Yahtzee
